import Mathlib

/-!
Verification of the peer-to-peer file transfer library (`src/index.js`).

The development shallowly embeds the transfer logic:
* the chunk codec implicit in `_sendFileInChunks` / `_assembleFile`
  (byte sequences are `List Nat`, slices are produced by the same
  do-while loop the source drives with `FileReader`),
* the sender's chunk-emission loop, including its flow-control check on
  `bufferedAmount` and its `readyState` guard,
* the receiver's `channel.onmessage` handler and `_assembleFile`,
* the coordinator state (`this.peers` registry, callbacks, signals):
  `sendFile`, `_getOrCreatePeerConnection`, `_handleSignal`,
  `_cleanupPeer`.

Effects that the source delegates to the environment (whether an awaited
negotiation step throws, how fast the transport drains its buffer, the
`readyState` observed at each `onload`) are passed in as explicit
parameters, so every definition stays executable.
-/

namespace P2PFT

/-- The chunk size `this.chunkSize` fixed by the constructor (16KB). -/
def chunkSize : Nat := 16384

/-- The metadata the source builds from a `File` (name, size, type). -/
structure FileMeta where
  fileName : String
  fileSize : Nat
  fileType : String
deriving DecidableEq

/-! ## Chunk codec

`_sendFileInChunks` drives a do-while loop: `readSlice` takes
`file.slice(offset, offset + chunkSize)`, the `onload` handler advances
`offset` by the slice's byte length and loops while `offset < file.size`.
`splitGo` embeds one loop iteration per call; `fuel` bounds the number of
iterations (the initial call passes `bytes.length`, which is enough fuel
whenever `C > 0`; with `C = 0` the source loop would not terminate either,
and the fuel-exhausted branch returns the same slice the iteration built). -/
def splitGo (bytes : List Nat) (C : Nat) : Nat → Nat → List (List Nat)
  | 0, offset => [(bytes.drop offset).take C]
  | fuel + 1, offset =>
    let slice := (bytes.drop offset).take C
    if offset + slice.length < bytes.length then
      slice :: splitGo bytes C fuel (offset + slice.length)
    else
      [slice]

/-- Splitting a byte sequence into chunks, exactly as the sender loop slices. -/
def split (bytes : List Nat) (C : Nat) : List (List Nat) :=
  splitGo bytes C bytes.length 0

/-- Reassembly: `_assembleFile` hands `receivedChunks` to `Blob`, which
concatenates them in order. -/
def assemble (chunks : List (List Nat)) : List Nat :=
  chunks.flatten

lemma splitGo_flatten (bytes : List Nat) (C : Nat) (hC : 0 < C) :
    ∀ fuel offset, bytes.length - offset ≤ fuel + C →
      (splitGo bytes C fuel offset).flatten = bytes.drop offset := by
  intro fuel
  induction fuel with
  | zero =>
    intro offset h
    have hlen : (bytes.drop offset).length ≤ C := by
      simp only [List.length_drop]
      omega
    simp [splitGo, List.take_of_length_le hlen]
  | succ fuel ih =>
    intro offset h
    simp only [splitGo]
    have hslice : ((bytes.drop offset).take C).length = min C (bytes.length - offset) := by
      simp [List.length_take, List.length_drop]
    by_cases hcond : offset + ((bytes.drop offset).take C).length < bytes.length
    · simp only [hcond, if_true, List.flatten_cons]
      rw [ih (offset + ((bytes.drop offset).take C).length) (by omega)]
      rw [← List.drop_drop]
      by_cases hC2 : C ≤ (bytes.drop offset).length
      · rw [show ((bytes.drop offset).take C).length = C by
          simp only [List.length_take]
          omega]
        exact List.take_append_drop C _
      · rw [List.take_of_length_le (by omega)]
        rw [List.drop_length, List.append_nil]
    · simp only [hcond, if_false]
      have hlen : (bytes.drop offset).length ≤ C := by
        simp only [List.length_drop]
        omega
      simp [List.take_of_length_le hlen]

lemma splitGo_slice_le (bytes : List Nat) (C : Nat) :
    ∀ fuel offset, ∀ s ∈ splitGo bytes C fuel offset, s.length ≤ C := by
  intro fuel
  induction fuel with
  | zero =>
    intro offset s hs
    simp only [splitGo, List.mem_singleton] at hs
    subst hs
    simp [List.length_take]
  | succ fuel ih =>
    intro offset s hs
    simp only [splitGo] at hs
    split at hs
    · rcases List.mem_cons.mp hs with h | h
      · subst h; simp [List.length_take]
      · exact ih _ s h
    · simp only [List.mem_singleton] at hs
      subst hs
      simp [List.length_take]

lemma splitGo_inner_eq (bytes : List Nat) (C : Nat) :
    ∀ fuel offset, ∀ i, i + 1 < (splitGo bytes C fuel offset).length →
      ((splitGo bytes C fuel offset).getD i []).length = C := by
  intro fuel
  induction fuel with
  | zero =>
    intro offset i hi
    simp [splitGo] at hi
  | succ fuel ih =>
    intro offset i hi
    simp only [splitGo] at hi ⊢
    split at hi
    case isTrue hcond =>
      simp only [if_true, List.length_cons] at hi ⊢
      rw [if_pos hcond]
      cases i with
      | zero =>
        simp only [List.getD_cons_zero]
        have hslice : ((bytes.drop offset).take C).length = min C (bytes.length - offset) := by
          simp [List.length_take, List.length_drop]
        omega
      | succ i =>
        simp only [List.getD_cons_succ]
        exact ih _ i (by omega)
    case isFalse hcond =>
      simp only [List.length_singleton] at hi
      omega

/-- C1. Round-trip of the chunk codec: for any byte sequence `B` and chunk
size `C > 0`, concatenating the slices produced by `split` yields exactly
`B`; every slice has length at most `C`, and every slice other than the
final one has length exactly `C` (only the final slice may be shorter). -/
theorem C1_chunk_codec_roundtrip (B : List Nat) (C : Nat) (hC : 0 < C) :
    assemble (split B C) = B ∧
    (∀ s ∈ split B C, s.length ≤ C) ∧
    (∀ i, i + 1 < (split B C).length → ((split B C).getD i []).length = C) := by
  refine ⟨?_, ?_, ?_⟩
  · have := splitGo_flatten B C hC B.length 0 (by omega)
    simpa [assemble, split] using this
  · exact fun s hs => splitGo_slice_le B C B.length 0 s hs
  · exact fun i hi => splitGo_inner_eq B C B.length 0 i hi

/-- Witness for C1 at `B = [0,1,2,3,4]`, `C = 2`. -/
theorem C1_chunk_codec_roundtrip_witness :
    0 < 2 ∧ assemble (split [0, 1, 2, 3, 4] 2) = [0, 1, 2, 3, 4] :=
  ⟨by decide, (C1_chunk_codec_roundtrip [0, 1, 2, 3, 4] 2 (by decide)).1⟩

/-! ## Sender chunk-emission loop

`_sendFileInChunks` first sends a Metadata control frame, then drives the
`readSlice`/`reader.onload` loop.  One `SendEvent` records each observable
action of an `onload` invocation.  The environment is abstracted by
* `ready k` — whether `channel.readyState === 'open'` holds when the k-th
  read completes,
* `drain k` — how many buffered bytes the transport flushed before the
  k-th `onload` runs (`bufferedAmount` is the running total of chunk bytes
  handed to `channel.send` minus what the transport drained; the bytes of
  the textual control frames are left out, which only under-approximates
  the real `bufferedAmount`).
`fuel` bounds the number of loop iterations; the top-level call passes
`file.length`, which is enough whenever the loop continues (each continuing
iteration advances `offset` by at least one byte since `chunkSize > 0`). -/

/-- One observable action of the sender. `sentChunk` records the slice that
was handed to `channel.send` together with the modelled `bufferedAmount`
right after the send (the value the flow-control check reads).
`delayed100 b` records a `setTimeout(readSlice, 100)` back-off taken while
the buffered amount was `b`.  `haltedNotOpen` records an `onload` that found
the channel not open and did nothing. -/
inductive SendEvent where
  | sentMetadata (m : FileMeta)
  | sentChunk (data : List Nat) (bufferedAfter : Nat)
  | progressed (sent total : Nat)
  | delayed100 (buffered : Nat)
  | sentEnd
  | haltedNotOpen
deriving DecidableEq

/-- The `reader.onload` loop of `_sendFileInChunks` (`src/index.js:178-197`),
one recursive call per completed slice read.  Each `onload`: if the channel
is open, send the slice (`buffered` grows by its length, after the
transport drained `drain k`), report progress with the advanced offset,
and while `offset < file.size` schedule the next read — after a 100 ms
back-off if `bufferedAmount > chunkSize * 10`, immediately otherwise;
at the end of the file send the End control frame instead.  The two `fuel`
patterns share this body; the `fuel = 0` pattern merely cannot recurse
(it is never reached from `sendFileInChunks`, whose initial fuel covers
every iteration the loop can take). -/
def sendLoop (file : List Nat) (ready : Nat → Bool) (drain : Nat → Nat) :
    Nat → Nat → Nat → Nat → List SendEvent
  | 0, k, offset, buffered =>
    if ready k then
      if offset + ((file.drop offset).take chunkSize).length < file.length then
        [SendEvent.sentChunk ((file.drop offset).take chunkSize)
            (buffered - drain k + ((file.drop offset).take chunkSize).length),
          SendEvent.progressed (offset + ((file.drop offset).take chunkSize).length) file.length]
      else
        [SendEvent.sentChunk ((file.drop offset).take chunkSize)
            (buffered - drain k + ((file.drop offset).take chunkSize).length),
          SendEvent.progressed (offset + ((file.drop offset).take chunkSize).length) file.length,
          SendEvent.sentEnd]
    else
      [SendEvent.haltedNotOpen]
  | fuel + 1, k, offset, buffered =>
    if ready k then
      if offset + ((file.drop offset).take chunkSize).length < file.length then
        SendEvent.sentChunk ((file.drop offset).take chunkSize)
            (buffered - drain k + ((file.drop offset).take chunkSize).length) ::
          SendEvent.progressed (offset + ((file.drop offset).take chunkSize).length)
            file.length ::
          ((if chunkSize * 10 < buffered - drain k + ((file.drop offset).take chunkSize).length
            then
              [SendEvent.delayed100
                (buffered - drain k + ((file.drop offset).take chunkSize).length)]
            else []) ++
            sendLoop file ready drain fuel (k + 1)
              (offset + ((file.drop offset).take chunkSize).length)
              (buffered - drain k + ((file.drop offset).take chunkSize).length))
      else
        [SendEvent.sentChunk ((file.drop offset).take chunkSize)
            (buffered - drain k + ((file.drop offset).take chunkSize).length),
          SendEvent.progressed (offset + ((file.drop offset).take chunkSize).length) file.length,
          SendEvent.sentEnd]
    else
      [SendEvent.haltedNotOpen]

/-- Embedding of `_sendFileInChunks`: Metadata control frame first, then the read loop
(initial `offset = 0`, nothing buffered yet). -/
def sendFileInChunks (file : List Nat) (m : FileMeta) (ready : Nat → Bool)
    (drain : Nat → Nat) : List SendEvent :=
  SendEvent.sentMetadata m :: sendLoop file ready drain file.length 0 0 0

/-- The `bufferedAmount` recorded by a `sentChunk` event (0 for others). -/
def chunkPeak : SendEvent → Nat
  | SendEvent.sentChunk _ b => b
  | _ => 0

/-- Largest `bufferedAmount` observed right after any chunk send. -/
def maxChunkBuffered : List SendEvent → Nat
  | [] => 0
  | e :: rest => max (chunkPeak e) (maxChunkBuffered rest)

/-- Whether an event is a flow-control back-off. -/
def isDelay : SendEvent → Bool
  | SendEvent.delayed100 _ => true
  | _ => false

/-- Holds (is `true`) iff the trace never contains two back-offs in a row: after one
100 ms delay the sender always enqueues the next slice (it does not
re-check the buffered amount). -/
def noDoubleDelay : List SendEvent → Bool
  | a :: b :: rest => (!(isDelay a && isDelay b)) && noDoubleDelay (b :: rest)
  | _ => true

/-- Every back-off in the trace was taken while the buffered amount
exceeded `chunkSize * 10` (the source's threshold). -/
def delaysOverThreshold (l : List SendEvent) : Bool :=
  l.all fun e =>
    match e with
    | SendEvent.delayed100 b => decide (chunkSize * 10 < b)
    | _ => true

lemma maxChunkBuffered_cons (e : SendEvent) (l : List SendEvent) :
    maxChunkBuffered (e :: l) = max (chunkPeak e) (maxChunkBuffered l) := rfl

lemma maxChunkBuffered_append (l₁ l₂ : List SendEvent) :
    maxChunkBuffered (l₁ ++ l₂) = max (maxChunkBuffered l₁) (maxChunkBuffered l₂) := by
  induction l₁ with
  | nil => simp [maxChunkBuffered]
  | cons e t ih => simp [maxChunkBuffered, ih, Nat.max_assoc]

/-- Under a transport that never drains and a channel that stays open, the
buffered amount right after the last chunk send is the whole remainder of
the file: the single 100 ms delay never lets anything out, so
`maxChunkBuffered` reaches at least `buffered + (|file| - offset)`. -/
lemma sendLoop_frozen_max (file : List Nat) (ready : Nat → Bool) (drain : Nat → Nat)
    (hready : ∀ j, ready j = true) (hdrain : ∀ j, drain j = 0) :
    ∀ fuel k offset buffered, file.length - offset ≤ fuel + 1 →
      buffered + (file.length - offset) ≤
        maxChunkBuffered (sendLoop file ready drain fuel k offset buffered) := by
  have hcs : chunkSize = 16384 := rfl
  intro fuel
  induction fuel with
  | zero =>
    intro k offset buffered h
    have hslice : ((file.drop offset).take chunkSize).length
        = min chunkSize (file.length - offset) := by
      simp [List.length_take, List.length_drop]
    have hd := hdrain k
    simp only [sendLoop]
    split
    case isFalse hr => exact absurd (hready k) hr
    case isTrue hr =>
      split
      · simp only [maxChunkBuffered, chunkPeak]
        omega
      · simp only [maxChunkBuffered, chunkPeak]
        omega
  | succ fuel ih =>
    intro k offset buffered h
    have hslice : ((file.drop offset).take chunkSize).length
        = min chunkSize (file.length - offset) := by
      simp [List.length_take, List.length_drop]
    have hd := hdrain k
    simp only [sendLoop]
    split
    case isFalse hr => exact absurd (hready k) hr
    case isTrue hr =>
      split
      case isTrue hcond =>
        have hrec := ih (k + 1) (offset + ((file.drop offset).take chunkSize).length)
          (buffered - drain k + ((file.drop offset).take chunkSize).length) (by omega)
        simp only [maxChunkBuffered, chunkPeak, maxChunkBuffered_append]
        split
        · simp only [maxChunkBuffered, chunkPeak]
          omega
        · simp only [maxChunkBuffered, chunkPeak]
          omega
      case isFalse hcond =>
        simp only [maxChunkBuffered, chunkPeak]
        omega

/-- A delay-free head does not affect `noDoubleDelay`. -/
lemma noDoubleDelay_cons_of (e : SendEvent) (l : List SendEvent) (he : isDelay e = false) :
    noDoubleDelay (e :: l) = noDoubleDelay l := by
  cases l with
  | nil => simp [noDoubleDelay]
  | cons b t => simp [noDoubleDelay, he]

/-- The read loop never begins with a back-off: the first event of any
invocation is a chunk send or the silent halt. -/
lemma sendLoop_head_ne_delay (file : List Nat) (ready : Nat → Bool) (drain : Nat → Nat)
    (fuel k offset buffered b : Nat) :
    (sendLoop file ready drain fuel k offset buffered).head? ≠
      some (SendEvent.delayed100 b) := by
  cases fuel <;> simp only [sendLoop] <;> split <;> (try split) <;> simp

/-- The read loop never takes two back-offs in a row: the single
`setTimeout(readSlice, 100)` is followed by an unconditional `readSlice`,
with no second look at `bufferedAmount`. -/
lemma sendLoop_noDoubleDelay (file : List Nat) (ready : Nat → Bool) (drain : Nat → Nat) :
    ∀ fuel k offset buffered,
      noDoubleDelay (sendLoop file ready drain fuel k offset buffered) = true := by
  intro fuel
  induction fuel with
  | zero =>
    intro k offset buffered
    simp only [sendLoop]
    split
    · split
      · simp [noDoubleDelay, isDelay]
      · simp [noDoubleDelay, isDelay]
    · simp [noDoubleDelay, isDelay]
  | succ fuel ih =>
    intro k offset buffered
    simp only [sendLoop]
    split
    case isTrue hr =>
      split
      case isTrue hcond =>
        rw [noDoubleDelay_cons_of _ _ (by simp [isDelay]),
          noDoubleDelay_cons_of _ _ (by simp [isDelay])]
        split
        case isTrue hth =>
          rw [List.singleton_append]
          cases hrec : sendLoop file ready drain fuel (k + 1)
              (offset + ((file.drop offset).take chunkSize).length)
              (buffered - drain k + ((file.drop offset).take chunkSize).length) with
          | nil => simp [noDoubleDelay]
          | cons r0 rs =>
            have hr0 : isDelay r0 = false := by
              cases r0 <;> simp [isDelay]
              case delayed100 b =>
                have hhb := sendLoop_head_ne_delay file ready drain fuel (k + 1)
                  (offset + ((file.drop offset).take chunkSize).length)
                  (buffered - drain k + ((file.drop offset).take chunkSize).length) b
                rw [hrec] at hhb
                simp at hhb
            have ihndd := ih (k + 1) (offset + ((file.drop offset).take chunkSize).length)
              (buffered - drain k + ((file.drop offset).take chunkSize).length)
            rw [hrec] at ihndd
            simp only [noDoubleDelay, Bool.and_eq_true, Bool.not_eq_true']
            constructor
            · exact hr0
            · exact ihndd
        case isFalse hth =>
          rw [List.nil_append]
          exact ih (k + 1) (offset + ((file.drop offset).take chunkSize).length)
            (buffered - drain k + ((file.drop offset).take chunkSize).length)
      case isFalse hcond =>
        simp [noDoubleDelay, isDelay]
    case isFalse hr =>
      simp [noDoubleDelay, isDelay]

/-- Every back-off in any sender trace was taken above the threshold. -/
lemma sendLoop_delaysOverThreshold (file : List Nat) (ready : Nat → Bool) (drain : Nat → Nat) :
    ∀ fuel k offset buffered,
      delaysOverThreshold (sendLoop file ready drain fuel k offset buffered) = true := by
  intro fuel
  induction fuel with
  | zero =>
    intro k offset buffered
    simp only [sendLoop]
    split
    · split
      · simp [delaysOverThreshold]
      · simp [delaysOverThreshold]
    · simp [delaysOverThreshold]
  | succ fuel ih =>
    intro k offset buffered
    simp only [sendLoop]
    split
    case isTrue hr =>
      split
      case isTrue hcond =>
        have ihall := ih (k + 1) (offset + ((file.drop offset).take chunkSize).length)
          (buffered - drain k + ((file.drop offset).take chunkSize).length)
        simp only [delaysOverThreshold, List.all_cons, List.all_append] at ihall ⊢
        split
        case isTrue hth =>
          simp only [List.length_take, List.length_drop] at ihall hth
          simp [ihall, hth]
        case isFalse hth =>
          simp only [List.length_take, List.length_drop] at ihall
          simp [ihall]
      case isFalse hcond =>
        simp [delaysOverThreshold]
    case isFalse hr =>
      simp [delaysOverThreshold]

/-- C2 counterexample. The claimed flow-control bound fails on the code:
with a frozen receiver (transport never drains) and an always-open channel,
a 12-chunk file (196608 bytes) drives the modelled `bufferedAmount` above
`10 * chunkSize + chunkSize = 180224` — the check at `src/index.js:187`
only delays the next read by 100 ms and never re-checks, so nothing stops
the buffer from reaching the whole file size. -/
theorem C2_flow_control_counterexample :
    chunkSize * 10 + chunkSize <
      maxChunkBuffered (sendFileInChunks (List.replicate (12 * chunkSize) 0)
        { fileName := "big.bin", fileSize := 12 * chunkSize, fileType := "bin" }
        (fun _ => true) (fun _ => 0)) := by
  have h := sendLoop_frozen_max (List.replicate (12 * chunkSize) 0)
    (fun _ => true) (fun _ => 0) (fun _ => rfl) (fun _ => rfl)
    (List.replicate (12 * chunkSize) 0).length 0 0 0 (by omega)
  have hcs : chunkSize = 16384 := rfl
  have hlen : (List.replicate (12 * chunkSize) 0).length = 12 * chunkSize := by simp
  rw [sendFileInChunks, maxChunkBuffered_cons]
  simp only [chunkPeak]
  omega

/-- C2 (amended). What the code actually guarantees: (1) under a frozen
receiver the sender's buffered bytes reach at least the full file size
(so no bound of the form `10 * chunkSize + one chunk` holds — the buffer
grows without bound in the file size); (2) after a back-off the sender
enqueues the next slice without re-checking (never two delays in a row);
(3) every back-off is taken exactly when, right after a send with data
remaining, the buffered amount exceeds `10 * chunkSize`. -/
theorem C2_flow_control_amended (file : List Nat) (m : FileMeta)
    (ready : Nat → Bool) (drain : Nat → Nat) :
    file.length ≤ maxChunkBuffered (sendFileInChunks file m (fun _ => true) (fun _ => 0)) ∧
    noDoubleDelay (sendFileInChunks file m ready drain) = true ∧
    delaysOverThreshold (sendFileInChunks file m ready drain) = true := by
  refine ⟨?_, ?_, ?_⟩
  · have h := sendLoop_frozen_max file (fun _ => true) (fun _ => 0)
      (fun _ => rfl) (fun _ => rfl) file.length 0 0 0 (by omega)
    rw [sendFileInChunks, maxChunkBuffered_cons]
    simp only [chunkPeak]
    omega
  · rw [sendFileInChunks, noDoubleDelay_cons_of _ _ (by simp [isDelay])]
    exact sendLoop_noDoubleDelay file ready drain file.length 0 0 0
  · have h := sendLoop_delaysOverThreshold file ready drain file.length 0 0 0
    simp only [sendFileInChunks, delaysOverThreshold, List.all_cons] at h ⊢
    simp [h]

/-- C10. In the sender's chunk loop, if the channel's readyState is not
open when a chunk read completes (`src/index.js:179`), the sender halts
permanently and silently: the `onload` body is skipped entirely, so no
chunk is sent, no End control frame is sent, the progress callback is not
invoked for that chunk, and no error callback fires. -/
theorem C10_not_open_halts_silently (file : List Nat) (ready : Nat → Bool)
    (drain : Nat → Nat) (fuel k offset buffered : Nat) (h : ready k = false) :
    sendLoop file ready drain fuel k offset buffered = [SendEvent.haltedNotOpen] ∧
    SendEvent.sentEnd ∉ sendLoop file ready drain fuel k offset buffered := by
  have he : sendLoop file ready drain fuel k offset buffered
      = [SendEvent.haltedNotOpen] := by
    cases fuel <;> simp [sendLoop, h]
  refine ⟨he, ?_⟩
  rw [he]
  simp

/-- Witness for C10: a channel that is never open makes the loop emit
exactly the silent halt event. -/
theorem C10_not_open_halts_silently_witness :
    (fun _ : Nat => false) 0 = false ∧
    sendLoop [1, 2, 3] (fun _ => false) (fun _ => 0) 3 0 0 0
      = [SendEvent.haltedNotOpen] :=
  ⟨rfl, (C10_not_open_halts_silently [1, 2, 3] (fun _ => false) (fun _ => 0) 3 0 0 0 rfl).1⟩

/-! ## Receiver: per-peer state and the `channel.onmessage` handler

The registry value stored in `this.peers` (`src/index.js:72-78`) is
`{pc, isInitiator, receivedChunks, receivedBytes, fileMetadata}`.  The
`RTCPeerConnection` handle is modelled by `sid`, a creation stamp that
identifies the underlying connection object, plus `channels`, the number
of data channels created on it via `createDataChannel`. -/

/-- One registry entry (`peerData` in the source). -/
structure PeerEntry where
  sid : Nat
  isInitiator : Bool
  channels : Nat
  receivedChunks : List (List Nat)
  receivedBytes : Nat
  fileMetadata : Option FileMeta
deriving DecidableEq

/-- A fresh entry as built at `src/index.js:72-78`. -/
def freshEntry (sid : Nat) (isInit : Bool) : PeerEntry :=
  { sid := sid, isInitiator := isInit, channels := 0,
    receivedChunks := [], receivedBytes := 0, fileMetadata := none }

/-- A successfully parsed control frame: `JSON.parse(event.data)` yielded a
record whose `type` is `metadata`, `end`, or anything else (`otherF`,
silently ignored by the source's if/else chain). -/
inductive CtrlFrame where
  | metadataF (m : FileMeta)
  | endFrameF
  | otherF (t : String)
deriving DecidableEq

/-- One incoming channel message.  `text (some f)` is a textual frame whose
JSON parsed to `f`; `text none` is a textual frame on which `JSON.parse`
throws; `binary d` is a binary chunk with bytes `d`. -/
inductive RecvMsg where
  | text (parsed : Option CtrlFrame)
  | binary (data : List Nat)
deriving DecidableEq

/-- Everything observable about one `onmessage` invocation: the peer entry
afterwards (`none` = the session was torn down by `_cleanupPeer`), the
progress/completion callback invocations, the number of error-callback
invocations, and whether the handler aborted on an uncaught exception
(`JSON.parse` throwing inside the `async` handler). -/
structure RecvOutcome where
  peer : Option PeerEntry
  progressCalls : List (Nat × Nat)
  completeCalls : List (List Nat × String)
  errorCalls : Nat
  uncaught : Bool
deriving DecidableEq

/-- Embedding of `_assembleFile` (`src/index.js:205-221`): returns early — changing
nothing and reporting nothing — when the entry or its metadata is missing;
otherwise builds the Blob from `receivedChunks`, fires the completion
callback, and removes the peer. -/
def assembleFile (pd : PeerEntry) : RecvOutcome :=
  match pd.fileMetadata with
  | none =>
    { peer := some pd, progressCalls := [], completeCalls := [],
      errorCalls := 0, uncaught := false }
  | some m =>
    { peer := none, progressCalls := [],
      completeCalls := [(assemble pd.receivedChunks, m.fileName)],
      errorCalls := 0, uncaught := false }

/-- The receiver's `channel.onmessage` (`src/index.js:128-149`).  A textual
frame is parsed: `metadata` overwrites `fileMetadata`, `end` calls
`_assembleFile`, any other type is ignored, and a parse failure aborts the
handler before any mutation (no error callback anywhere in this path).
A binary chunk is appended and counted; progress fires only when metadata
is already known. -/
def onmessage (pd : PeerEntry) : RecvMsg → RecvOutcome
  | RecvMsg.text none =>
    { peer := some pd, progressCalls := [], completeCalls := [],
      errorCalls := 0, uncaught := true }
  | RecvMsg.text (some (CtrlFrame.metadataF m)) =>
    { peer := some { pd with fileMetadata := some m }, progressCalls := [],
      completeCalls := [], errorCalls := 0, uncaught := false }
  | RecvMsg.text (some CtrlFrame.endFrameF) => assembleFile pd
  | RecvMsg.text (some (CtrlFrame.otherF _)) =>
    { peer := some pd, progressCalls := [], completeCalls := [],
      errorCalls := 0, uncaught := false }
  | RecvMsg.binary d =>
    { peer := some { pd with
        receivedChunks := pd.receivedChunks ++ [d],
        receivedBytes := pd.receivedBytes + d.length },
      progressCalls :=
        match pd.fileMetadata with
        | some m => [(pd.receivedBytes + d.length, m.fileSize)]
        | none => [],
      completeCalls := [], errorCalls := 0, uncaught := false }

/-- Processing a sequence of messages while the session is registered
(once `_cleanupPeer` removes the entry, the session's run is over),
accumulating all callback invocations. -/
def runMsgs (pd : PeerEntry) : List RecvMsg → RecvOutcome
  | [] =>
    { peer := some pd, progressCalls := [], completeCalls := [],
      errorCalls := 0, uncaught := false }
  | msg :: rest =>
    match (onmessage pd msg).peer with
    | none => onmessage pd msg
    | some pd' =>
      { peer := (runMsgs pd' rest).peer,
        progressCalls := (onmessage pd msg).progressCalls ++ (runMsgs pd' rest).progressCalls,
        completeCalls := (onmessage pd msg).completeCalls ++ (runMsgs pd' rest).completeCalls,
        errorCalls := (onmessage pd msg).errorCalls + (runMsgs pd' rest).errorCalls,
        uncaught := (onmessage pd msg).uncaught || (runMsgs pd' rest).uncaught }

/-- Sum of the lengths of the buffered chunks. -/
def chunkSum (pd : PeerEntry) : Nat :=
  (pd.receivedChunks.map List.length).sum

/-- C3 counterexample. The claim says every malformed frame is reported via
the error callback; the code reports neither kind: an End frame arriving
before any metadata makes `_assembleFile` return early with no callback,
and a textual frame whose JSON does not parse throws out of the handler
without any error callback. -/
theorem C3_malformed_frame_counterexample :
    (onmessage (freshEntry 0 false) (RecvMsg.text (some CtrlFrame.endFrameF))).errorCalls = 0 ∧
    (onmessage (freshEntry 0 false) (RecvMsg.text none)).errorCalls = 0 := by
  constructor <;> rfl

/-- C3 (amended). Malformed frames do leave the session state untouched —
no Failed transition, no teardown, `receivedChunks`/`receivedBytes`/the
registry entry unchanged — but they are NOT reported through the error
callback: an End before metadata is silently ignored, and an unparseable
textual frame aborts the handler with an uncaught exception. -/
theorem C3_malformed_frame_amended (pd : PeerEntry) :
    (pd.fileMetadata = none →
      onmessage pd (RecvMsg.text (some CtrlFrame.endFrameF)) =
        { peer := some pd, progressCalls := [], completeCalls := [],
          errorCalls := 0, uncaught := false }) ∧
    onmessage pd (RecvMsg.text none) =
      { peer := some pd, progressCalls := [], completeCalls := [],
        errorCalls := 0, uncaught := true } := by
  constructor
  · intro h
    simp [onmessage, assembleFile, h]
  · rfl

/-- Witness for C3 (amended) at the fresh receiver entry. -/
theorem C3_malformed_frame_amended_witness :
    (freshEntry 0 false).fileMetadata = none ∧
    onmessage (freshEntry 0 false) (RecvMsg.text (some CtrlFrame.endFrameF)) =
      { peer := some (freshEntry 0 false), progressCalls := [], completeCalls := [],
        errorCalls := 0, uncaught := false } :=
  ⟨rfl, (C3_malformed_frame_amended (freshEntry 0 false)).1 rfl⟩

/-- C8. Receiver byte-count invariant: one `onmessage` step preserves
`receivedBytes = Σ length receivedChunks` (the binary branch appends the
chunk and adds exactly its length), and `receivedBytes` never decreases. -/
theorem C8_received_bytes_invariant (pd : PeerEntry) (msg : RecvMsg) (pd' : PeerEntry)
    (h1 : pd.receivedBytes = chunkSum pd)
    (h2 : (onmessage pd msg).peer = some pd') :
    pd'.receivedBytes = chunkSum pd' ∧ pd.receivedBytes ≤ pd'.receivedBytes := by
  cases msg with
  | text parsed =>
    cases parsed with
    | none =>
      simp only [onmessage, Option.some.injEq] at h2
      subst h2
      exact ⟨h1, Nat.le_refl _⟩
    | some f =>
      cases f with
      | metadataF m =>
        simp only [onmessage, Option.some.injEq] at h2
        subst h2
        exact ⟨h1, Nat.le_refl _⟩
      | endFrameF =>
        simp only [onmessage, assembleFile] at h2
        cases hm : pd.fileMetadata with
        | none =>
          rw [hm] at h2
          simp only [Option.some.injEq] at h2
          subst h2
          exact ⟨h1, Nat.le_refl _⟩
        | some m =>
          rw [hm] at h2
          simp at h2
      | otherF t =>
        simp only [onmessage, Option.some.injEq] at h2
        subst h2
        exact ⟨h1, Nat.le_refl _⟩
  | binary d =>
    simp only [onmessage, Option.some.injEq] at h2
    subst h2
    constructor
    · simp [chunkSum, h1]
    · simp

/-- Witness for C8: appending the binary chunk `[1,2,3]` to a fresh entry. -/
theorem C8_received_bytes_invariant_witness :
    (freshEntry 0 false).receivedBytes = chunkSum (freshEntry 0 false) ∧
    (onmessage (freshEntry 0 false) (RecvMsg.binary [1, 2, 3])).peer =
      some { freshEntry 0 false with receivedChunks := [[1, 2, 3]], receivedBytes := 3 } ∧
    ({ freshEntry 0 false with
        receivedChunks := [[1, 2, 3]], receivedBytes := 3 } : PeerEntry).receivedBytes =
      chunkSum { freshEntry 0 false with receivedChunks := [[1, 2, 3]], receivedBytes := 3 } ∧
    (freshEntry 0 false).receivedBytes ≤
      ({ freshEntry 0 false with
          receivedChunks := [[1, 2, 3]], receivedBytes := 3 } : PeerEntry).receivedBytes :=
  ⟨rfl, by decide,
    C8_received_bytes_invariant (freshEntry 0 false) (RecvMsg.binary [1, 2, 3])
      { freshEntry 0 false with receivedChunks := [[1, 2, 3]], receivedBytes := 3 }
      rfl (by decide)⟩

/-! ## Coordinator: registry, `sendFile`, `_handleSignal`

`this.peers` is a `Map` from socket id to `peerData`; it is modelled as an
association list in insertion order.  Signals put on the socket and error
callback invocations are accumulated.  Whether an awaited negotiation step
(`createOffer`/`setLocalDescription` in `sendFile`, the
`setRemoteDescription`/`createAnswer`/`setLocalDescription`/`addIceCandidate`
chain in `_handleSignal`) throws is an environment choice, passed in as an
`Option String` carrying the thrown error. -/

/-- An outbound signaling payload (`_sendSignal` data). -/
inductive SigMsg where
  | offerSig (m : FileMeta)
  | answerSig
  | candidateSig
deriving DecidableEq

/-- Whether the promise returned by an `async` entry point resolved or
rejected. -/
inductive PromiseOutcome where
  | resolved
  | rejected (e : String)
deriving DecidableEq

/-- The coordinator's state: the `this.peers` registry, a stamp for the
next created connection, and the accumulated error-callback invocations
and outbound signals. -/
structure Coord where
  peers : List (String × PeerEntry)
  nextSid : Nat
  errorCalls : List String
  sentSignals : List (String × SigMsg)
deriving DecidableEq

/-- The state right after the constructor: empty registry. -/
def initCoord : Coord :=
  { peers := [], nextSid := 0, errorCalls := [], sentSignals := [] }

/-- Registry lookup (`Map.get`): the entry stored under key `p`. -/
def lookupPeer (p : String) : List (String × PeerEntry) → Option PeerEntry
  | [] => none
  | e :: t => if e.1 = p then some e.2 else lookupPeer p t

/-- Embedding of `_getOrCreatePeerConnection` (`src/index.js:66-109`): return the
existing entry when present — regardless of the requested role — otherwise
build a fresh entry and register it. -/
def getOrCreatePeerConnection (c : Coord) (p : String) (isInit : Bool) :
    PeerEntry × Coord :=
  match lookupPeer p c.peers with
  | some s => (s, c)
  | none =>
    (freshEntry c.nextSid isInit,
      { c with peers := c.peers ++ [(p, freshEntry c.nextSid isInit)],
               nextSid := c.nextSid + 1 })

/-- Apply `f` to the entry registered under `p` (used for mutations of the
`peerData` object reached through the registry). -/
def updateEntry (c : Coord) (p : String) (f : PeerEntry → PeerEntry) : Coord :=
  { c with peers := c.peers.map fun e => if e.1 = p then (e.1, f e.2) else e }

/-- Embedding of `sendFile` (`src/index.js:40-61`): get or create the peer connection
(sender role), create a NEW data channel on it, then create and send the
offer.  `offerErr = some e` means the awaited offer creation threw `e`:
the `catch` block reports it via the error callback and the `async`
function still resolves. -/
def sendFile (c : Coord) (p : String) (m : FileMeta) (offerErr : Option String) :
    Coord × PromiseOutcome :=
  let c1 := updateEntry (getOrCreatePeerConnection c p true).2 p
    fun s => { s with channels := s.channels + 1 }
  match offerErr with
  | some e =>
    ({ c1 with errorCalls := c1.errorCalls ++ [e] }, PromiseOutcome.resolved)
  | none =>
    ({ c1 with sentSignals := c1.sentSignals ++ [(p, SigMsg.offerSig m)] },
      PromiseOutcome.resolved)

/-- An inbound signaling message's data, with the environment's choice of
whether the negotiation steps it triggers throw. -/
inductive SignalData where
  | offer (m : FileMeta) (negErr : Option String)
  | answer (applyErr : Option String)
  | iceCandidate (applyErr : Option String)
deriving DecidableEq

/-- Embedding of `_handleSignal` (`src/index.js:226-269`).  An offer gets-or-creates the
receiver-role entry, stores the offer's file metadata unconditionally, and
then answers (an error thrown by the awaited negotiation steps is caught
and reported; the entry stays).  Answers and candidates only touch an
existing entry and never change the registry; for an unknown peer they are
silently dropped. -/
def handleSignal (c : Coord) (frm : String) : SignalData → Coord
  | SignalData.offer m negErr =>
    let c1 := updateEntry (getOrCreatePeerConnection c frm false).2 frm
      fun s => { s with fileMetadata := some m }
    (match negErr with
     | some e => { c1 with errorCalls := c1.errorCalls ++ [e] }
     | none => { c1 with sentSignals := c1.sentSignals ++ [(frm, SigMsg.answerSig)] })
  | SignalData.answer applyErr =>
    (match lookupPeer frm c.peers with
     | some _ =>
       (match applyErr with
        | some e => { c with errorCalls := c.errorCalls ++ [e] }
        | none => c)
     | none => c)
  | SignalData.iceCandidate applyErr =>
    (match lookupPeer frm c.peers with
     | some _ =>
       (match applyErr with
        | some e => { c with errorCalls := c.errorCalls ++ [e] }
        | none => c)
     | none => c)

/-- Embedding of `_cleanupPeer` (`src/index.js:281-287`): close and evict. -/
def cleanupPeer (c : Coord) (p : String) : Coord :=
  { c with peers := c.peers.filter fun e => !(decide (e.1 = p)) }

/-- The operations that reach the registry: an outbound `sendFile`, an
inbound signal, and the connection-state-change cleanup. -/
inductive Op where
  | sendOp (p : String) (m : FileMeta) (offerErr : Option String)
  | signalOp (frm : String) (d : SignalData)
  | closeOp (p : String)
deriving DecidableEq

/-- One coordinator step. -/
def stepOp (c : Coord) : Op → Coord
  | Op.sendOp p m e => (sendFile c p m e).1
  | Op.signalOp frm d => handleSignal c frm d
  | Op.closeOp p => cleanupPeer c p

/-- Running a sequence of operations from the freshly constructed state. -/
def runOps (ops : List Op) : Coord :=
  ops.foldl stepOp initCoord

lemma lookupPeer_map_update (p : String) (f : PeerEntry → PeerEntry) :
    ∀ l : List (String × PeerEntry),
      lookupPeer p (l.map fun e => if e.1 = p then (e.1, f e.2) else e) =
        (lookupPeer p l).map f := by
  intro l
  induction l with
  | nil => simp [lookupPeer]
  | cons a t ih =>
    by_cases h : a.1 = p
    · simp [lookupPeer, h, ih]
    · simp [lookupPeer, h, ih]

lemma lookupPeer_append_of_none (p : String) (l₁ l₂ : List (String × PeerEntry))
    (h : lookupPeer p l₁ = none) :
    lookupPeer p (l₁ ++ l₂) = lookupPeer p l₂ := by
  induction l₁ with
  | nil => simp
  | cons a t ih =>
    by_cases ha : a.1 = p
    · simp [lookupPeer, ha] at h
    · simp only [lookupPeer, ha, if_false, List.cons_append] at h ⊢
      exact ih h

lemma lookupPeer_none_not_mem (p : String) :
    ∀ l : List (String × PeerEntry), lookupPeer p l = none →
      p ∉ l.map Prod.fst := by
  intro l
  induction l with
  | nil => simp
  | cons a t ih =>
    intro h
    by_cases ha : a.1 = p
    · simp [lookupPeer, ha] at h
    · simp only [lookupPeer, ha, if_false] at h
      simp only [List.map_cons, List.mem_cons]
      rintro (rfl | hmem)
      · exact ha rfl
      · exact ih h hmem

lemma lookupPeer_getOrCreate_self (c : Coord) (p : String) (b : Bool) :
    lookupPeer p (getOrCreatePeerConnection c p b).2.peers =
      some (getOrCreatePeerConnection c p b).1 := by
  unfold getOrCreatePeerConnection
  cases h : lookupPeer p c.peers with
  | some s => simp [h]
  | none =>
    simp only [h]
    rw [lookupPeer_append_of_none p _ _ h]
    simp [lookupPeer]

lemma keys_map_of_fst (g : (String × PeerEntry) → (String × PeerEntry))
    (hg : ∀ e, (g e).1 = e.1) :
    ∀ l : List (String × PeerEntry), ((l.map g).map Prod.fst) = l.map Prod.fst := by
  intro l
  induction l with
  | nil => rfl
  | cons a t ih => simp [hg, ih]

lemma nodup_keys_getOrCreate (c : Coord) (p : String) (b : Bool)
    (h : (c.peers.map Prod.fst).Nodup) :
    ((getOrCreatePeerConnection c p b).2.peers.map Prod.fst).Nodup := by
  unfold getOrCreatePeerConnection
  cases hl : lookupPeer p c.peers with
  | some s => simpa using h
  | none =>
    simp only [List.map_append, List.map_cons, List.map_nil]
    rw [List.nodup_append]
    refine ⟨h, List.nodup_singleton _, ?_⟩
    intro a ha hb
    simp only [List.mem_singleton] at hb
    subst hb
    exact lookupPeer_none_not_mem _ c.peers hl ha

lemma nodup_keys_step (c : Coord) (op : Op)
    (h : (c.peers.map Prod.fst).Nodup) :
    ((stepOp c op).peers.map Prod.fst).Nodup := by
  cases op with
  | sendOp p m e =>
    have h1 := nodup_keys_getOrCreate c p true h
    have h2 : ((stepOp c (Op.sendOp p m e)).peers.map Prod.fst) =
        ((getOrCreatePeerConnection c p true).2.peers.map Prod.fst) := by
      cases e
      all_goals simp only [stepOp, sendFile, updateEntry]
      all_goals exact keys_map_of_fst _ (fun e => by split <;> rfl) _
    rw [h2]
    exact h1
  | signalOp frm d =>
    cases d with
    | offer m negErr =>
      have h1 := nodup_keys_getOrCreate c frm false h
      have h2 : ((stepOp c (Op.signalOp frm (SignalData.offer m negErr))).peers.map Prod.fst) =
          ((getOrCreatePeerConnection c frm false).2.peers.map Prod.fst) := by
        cases negErr
        all_goals simp only [stepOp, handleSignal, updateEntry]
        all_goals exact keys_map_of_fst _ (fun e => by split <;> rfl) _
      rw [h2]
      exact h1
    | answer applyErr =>
      cases hl : lookupPeer frm c.peers <;> cases applyErr <;>
        simpa [stepOp, handleSignal, hl] using h
    | iceCandidate applyErr =>
      cases hl : lookupPeer frm c.peers <;> cases applyErr <;>
        simpa [stepOp, handleSignal, hl] using h
  | closeOp p =>
    simp only [stepOp, cleanupPeer]
    exact List.Nodup.sublist (List.Sublist.map Prod.fst (List.filter_sublist _)) h

lemma nodup_keys_runOps (ops : List Op) :
    ((runOps ops).peers.map Prod.fst).Nodup := by
  have hgen : ∀ (l : List Op) (c : Coord), (c.peers.map Prod.fst).Nodup →
      ((l.foldl stepOp c).peers.map Prod.fst).Nodup := by
    intro l
    induction l with
    | nil => intro c hc; simpa using hc
    | cons op t ih =>
      intro c hc
      exact ih (stepOp c op) (nodup_keys_step c op hc)
  exact hgen ops initCoord (by simp [initCoord])

/-- Example metadata used by concrete counterexamples and witnesses. -/
def mEx : FileMeta := { fileName := "f.bin", fileSize := 5, fileType := "bin" }

/-- Example metadata value A. -/
def mA : FileMeta := { fileName := "a.bin", fileSize := 1, fileType := "x" }

/-- Example metadata value B (differs from `mA`). -/
def mB : FileMeta := { fileName := "b.bin", fileSize := 2, fileType := "y" }

/-- The entry the registry holds for peer `p` after one inbound offer. -/
def recvEntryEx : PeerEntry :=
  { sid := 0, isInitiator := false, channels := 0, receivedChunks := [],
    receivedBytes := 0, fileMetadata := some mEx }

/-- C7. At-most-one-session invariant: under any interleaving of `sendFile`
calls, inbound signals and teardowns, the registry never holds two entries
for the same peer identifier, and `_getOrCreatePeerConnection` inserts a
fresh entry exactly when no entry for the peer exists (otherwise it leaves
the registry untouched). -/
theorem C7_at_most_one_session (ops : List Op) (p : String) (c : Coord) (b : Bool) :
    List.count p ((runOps ops).peers.map Prod.fst) ≤ 1 ∧
    (getOrCreatePeerConnection c p b).2.peers =
      (match lookupPeer p c.peers with
       | some _ => c.peers
       | none => c.peers ++ [(p, freshEntry c.nextSid b)]) := by
  constructor
  · exact List.nodup_iff_count_le_one.mp (nodup_keys_runOps ops) p
  · unfold getOrCreatePeerConnection
    cases h : lookupPeer p c.peers <;> simp [h]

/-- C4 counterexample. Two `sendFile` calls for the same peer: the second
reuses the existing session (same connection stamp 0) but
`createDataChannel` runs again (`src/index.js:43`), so the session ends up
with TWO data channels — the claim's "reuses the existing session's data
channel rather than opening a duplicate" fails. -/
theorem C4_duplicate_channel_counterexample :
    (lookupPeer "p" (runOps [Op.sendOp "p" mEx none, Op.sendOp "p" mEx none]).peers).map
      (fun s => (s.sid, s.channels)) = some (0, 2) := by
  decide

/-- C4 (amended). A re-entrant `sendFile` reuses the existing session —
the registry returns the existing entry regardless of the requested role,
preserving its connection stamp and role — but it creates a NEW data
channel on that session (one per `sendFile` call) instead of reusing the
first one. -/
theorem C4_reuse_session_new_channel (c : Coord) (p : String) (m : FileMeta)
    (e : Option String) (s : PeerEntry) (h : lookupPeer p c.peers = some s) :
    lookupPeer p (sendFile c p m e).1.peers =
      some { s with channels := s.channels + 1 } := by
  have hg : getOrCreatePeerConnection c p true = (s, c) := by
    unfold getOrCreatePeerConnection
    rw [h]
  have hlu : lookupPeer p ((updateEntry c p
        (fun u => { u with channels := u.channels + 1 })).peers)
      = (lookupPeer p c.peers).map (fun u => { u with channels := u.channels + 1 }) :=
    lookupPeer_map_update p (fun u => { u with channels := u.channels + 1 }) c.peers
  cases e with
  | none =>
    have hpe : (sendFile c p m none).1.peers
        = (updateEntry c p (fun u => { u with channels := u.channels + 1 })).peers := by
      simp only [sendFile, hg]
    rw [hpe, hlu, h]
    rfl
  | some e' =>
    have hpe : (sendFile c p m (some e')).1.peers
        = (updateEntry c p (fun u => { u with channels := u.channels + 1 })).peers := by
      simp only [sendFile, hg]
    rw [hpe, hlu, h]
    rfl

/-- Witness for C4 (amended): the existing session was created by an
inbound offer (receiver role); `sendFile` still reuses it — role and stamp
unchanged — and adds a second channel creation. -/
theorem C4_reuse_session_new_channel_witness :
    lookupPeer "p" (runOps [Op.signalOp "p" (SignalData.offer mEx none)]).peers
      = some recvEntryEx ∧
    lookupPeer "p"
        (sendFile (runOps [Op.signalOp "p" (SignalData.offer mEx none)]) "p" mEx none).1.peers
      = some { recvEntryEx with channels := recvEntryEx.channels + 1 } :=
  ⟨by decide,
    C4_reuse_session_new_channel (runOps [Op.signalOp "p" (SignalData.offer mEx none)])
      "p" mEx none recvEntryEx (by decide)⟩

/-- C6 counterexample. When offer creation fails, the error goes to the
error callback but the `async sendFile` swallows it in its `catch`
(`src/index.js:58-60`): the returned promise RESOLVES — it is not rejected
as the claim requires. -/
theorem C6_sendFile_counterexample :
    (sendFile initCoord "p" mEx (some "offer-failed")).2 = PromiseOutcome.resolved ∧
    (sendFile initCoord "p" mEx (some "offer-failed")).2 ≠
      PromiseOutcome.rejected "offer-failed" ∧
    (sendFile initCoord "p" mEx (some "offer-failed")).1.errorCalls = ["offer-failed"] := by
  refine ⟨rfl, ?_, rfl⟩
  decide

/-- C6 (amended). Any error thrown while constructing the session or
creating the negotiation offer is delivered to the error callback, and the
caller's awaited `sendFile` promise RESOLVES normally (the `catch` block
does not re-throw, so the caller is never rejected). -/
theorem C6_sendFile_error_resolves (c : Coord) (p : String) (m : FileMeta) (e : String) :
    (sendFile c p m (some e)).1.errorCalls = c.errorCalls ++ [e] ∧
    (sendFile c p m (some e)).2 = PromiseOutcome.resolved := by
  constructor
  · unfold sendFile
    cases h : lookupPeer p c.peers <;>
      simp [getOrCreatePeerConnection, updateEntry, h]
  · rfl

/-- C9 counterexample. With metadata already stored (`mA`), a redundant
Metadata control frame carrying different values (`mB`) overwrites it
(`src/index.js:133` assigns unconditionally): the stored metadata changes. -/
theorem C9_metadata_overwritten_counterexample :
    ((onmessage { freshEntry 0 false with fileMetadata := some mA }
        (RecvMsg.text (some (CtrlFrame.metadataF mB)))).peer.map
      (fun s => s.fileMetadata)) = some (some mB) ∧ mB ≠ mA := by
  constructor
  · rfl
  · decide

/-- C9 (amended). Stored metadata is NOT immutable: a Metadata control
frame unconditionally overwrites the session's metadata with the frame's
values, and an inbound offer for the peer — first or repeated —
unconditionally overwrites it with the offer's values
(`src/index.js:235-239`).  The stored value is preserved only when the
overwriting values are equal. -/
theorem C9_metadata_overwrite_amended (pd : PeerEntry) (m' : FileMeta) (c : Coord)
    (frm : String) (e : Option String) :
    (onmessage pd (RecvMsg.text (some (CtrlFrame.metadataF m')))).peer
      = some { pd with fileMetadata := some m' } ∧
    (lookupPeer frm (handleSignal c frm (SignalData.offer m' e)).peers).map
      (fun s => s.fileMetadata) = some (some m') := by
  constructor
  · rfl
  · have hlu : lookupPeer frm ((updateEntry (getOrCreatePeerConnection c frm false).2 frm
          (fun u => { u with fileMetadata := some m' })).peers)
        = (lookupPeer frm (getOrCreatePeerConnection c frm false).2.peers).map
          (fun u => { u with fileMetadata := some m' }) :=
      lookupPeer_map_update frm (fun u => { u with fileMetadata := some m' })
        (getOrCreatePeerConnection c frm false).2.peers
    have hself := lookupPeer_getOrCreate_self c frm false
    cases e with
    | none =>
      have hpe : (handleSignal c frm (SignalData.offer m' none)).peers
          = (updateEntry (getOrCreatePeerConnection c frm false).2 frm
              (fun u => { u with fileMetadata := some m' })).peers := by
        simp only [handleSignal]
      rw [hpe, hlu, hself]
      rfl
    | some e' =>
      have hpe : (handleSignal c frm (SignalData.offer m' (some e'))).peers
          = (updateEntry (getOrCreatePeerConnection c frm false).2 frm
              (fun u => { u with fileMetadata := some m' })).peers := by
        simp only [handleSignal]
      rw [hpe, hlu, hself]
      rfl

/-- C5 counterexample. For a 0-byte file the claim fails twice: splitting
yields ONE zero-length slice (not zero slices — the do-while loop always
runs once), and the sender emits that empty slice as a binary chunk
between the Metadata and End frames (the `onload` fires with an empty
`ArrayBuffer` and `readyState` open sends it). -/
theorem C5_zero_byte_counterexample :
    split [] chunkSize = [[]] ∧
    sendFileInChunks [] mEx (fun _ => true) (fun _ => 0) =
      [SendEvent.sentMetadata mEx, SendEvent.sentChunk [] 0,
        SendEvent.progressed 0 0, SendEvent.sentEnd] := by
  constructor
  · rfl
  · rfl

/-- C5 (amended). For a 0-byte file: splitting yields exactly one
zero-length slice; the sender emits Metadata, then ONE empty binary chunk
(with a progress report of (0,0)), then End; the receiver appends the
empty chunk (`receivedBytes` stays 0), and on End assembles the empty
result and fires the completion callback once with the empty byte
sequence. -/
theorem C5_zero_byte_amended (C : Nat) (m : FileMeta) :
    split [] C = [[]] ∧
    sendFileInChunks [] m (fun _ => true) (fun _ => 0) =
      [SendEvent.sentMetadata m, SendEvent.sentChunk [] 0,
        SendEvent.progressed 0 0, SendEvent.sentEnd] ∧
    runMsgs (freshEntry 0 false)
        [RecvMsg.text (some (CtrlFrame.metadataF m)), RecvMsg.binary [],
          RecvMsg.text (some CtrlFrame.endFrameF)] =
      { peer := none, progressCalls := [(0, m.fileSize)],
        completeCalls := [([], m.fileName)], errorCalls := 0, uncaught := false } := by
  refine ⟨?_, rfl, ?_⟩
  · simp [split, splitGo]
  · rfl

end P2PFT
